import Mathlib

/-!
Verification of the anyserve Dispatcher core against its specification.

The definitions below are shallow embeddings of the C++ sources:
`src/cpp/server/model_registry.cpp`, `src/cpp/server/worker_client.cpp`,
`src/cpp/server/anyserve_core.cpp` and the KServe dispatcher service
implementation.  `std::unordered_map` is modelled as an association list
with canonical update (the observable interface is `aget`); `std::vector`
is a `List`.
-/

namespace Anyserve

/-- Association-list lookup: first entry whose key matches. -/
def aget {α : Type} : List (String × α) → String → Option α
  | [], _ => none
  | (k2, v) :: rest, k => if k2 = k then some v else aget rest k

/-- Association-list erase: drop every entry with the given key
(models `unordered_map::erase`). -/
def aerase {α : Type} : List (String × α) → String → List (String × α)
  | [], _ => []
  | (k2, v) :: rest, k => if k2 = k then aerase rest k else (k2, v) :: aerase rest k

/-- Association-list insert-or-assign (models `unordered_map::operator[] =`). -/
def aset {α : Type} (l : List (String × α)) (k : String) (v : α) : List (String × α) :=
  (k, v) :: aerase l k

/-! ## Model registry (src/cpp/server/model_registry.cpp) -/

/-- The three indices guarded by the registry mutex. -/
structure RegistryState where
  model_to_worker : List (String × String)
  worker_to_models : List (String × List String)
  worker_addresses : List (String × String)
deriving DecidableEq, Repr

/-- The registry at process start: all three maps empty. -/
def RegistryState.init : RegistryState := ⟨[], [], []⟩

/-- `ModelRegistry::make_model_key`: `name` when the version is empty,
otherwise `name ++ ":" ++ version`. -/
def make_model_key (name version : String) : String :=
  if version = "" then name else name ++ ":" ++ version

/-- The reverse list of `wid` after `register_model` adds `key`: the list is
left alone when it already holds the key, else the key is pushed at the back
(the `std::find` guard in `ModelRegistry::register_model`). -/
def updatedModels (s : RegistryState) (key wid : String) : List String :=
  let models := (aget s.worker_to_models wid).getD []
  if key ∈ models then models else models ++ [key]

/-- `ModelRegistry::register_model`: upsert the forward entry, append the key
to the worker's reverse list when absent, and cache the worker address. -/
def register_model (s : RegistryState) (name version addr wid : String) : RegistryState :=
  let key := make_model_key name version
  { model_to_worker := aset s.model_to_worker key addr
    worker_to_models := aset s.worker_to_models wid (updatedModels s key wid)
    worker_addresses := aset s.worker_addresses wid addr }

/-- `ModelRegistry::lookup_worker`: exact key first, then the version-less
fallback key when a version was given, else not found. -/
def lookup_worker (s : RegistryState) (name version : String) : Option String :=
  match aget s.model_to_worker (make_model_key name version) with
  | some a => some a
  | none =>
    if version ≠ "" then aget s.model_to_worker (make_model_key name "")
    else none

/-- `ModelRegistry::unregister_worker`: erase every key of the worker's
reverse list from the forward index (counting each list entry), then drop the
reverse list and the address record.  Returns the new state and the count. -/
def unregister_worker (s : RegistryState) (wid : String) : RegistryState × Nat :=
  match aget s.worker_to_models wid with
  | some models =>
      ({ model_to_worker := models.foldl aerase s.model_to_worker
         worker_to_models := aerase s.worker_to_models wid
         worker_addresses := aerase s.worker_addresses wid }, models.length)
  | none =>
      ({ s with worker_addresses := aerase s.worker_addresses wid }, 0)

/-- `ModelRegistry::unregister_model`: remove one key from the forward index
and from the named worker's reverse list; drop the worker's records when its
list becomes empty.  Returns whether a forward entry was removed. -/
def unregister_model (s : RegistryState) (name version wid : String) : RegistryState × Bool :=
  let key := make_model_key name version
  match aget s.model_to_worker key with
  | none => (s, false)
  | some _ =>
    let forward := aerase s.model_to_worker key
    match aget s.worker_to_models wid with
    | none => ({ s with model_to_worker := forward }, true)
    | some models =>
      let models2 := models.filter (fun m => m ≠ key)
      if models2.isEmpty then
        ({ model_to_worker := forward
           worker_to_models := aerase s.worker_to_models wid
           worker_addresses := aerase s.worker_addresses wid }, true)
      else
        ({ model_to_worker := forward
           worker_to_models := aset s.worker_to_models wid models2
           worker_addresses := s.worker_addresses }, true)

/-- One registry mutation, as invoked through the management service. -/
inductive RegOp where
  | reg (name version addr wid : String)
  | unregWorker (wid : String)
  | unregModel (name version wid : String)
deriving DecidableEq, Repr

/-- Apply one mutation (results of the unregister calls are discarded). -/
def applyOp (s : RegistryState) : RegOp → RegistryState
  | .reg name version addr wid => register_model s name version addr wid
  | .unregWorker wid => (unregister_worker s wid).1
  | .unregModel name version wid => (unregister_model s name version wid).1

/-- The registry state after a sequence of mutations from the initial state. -/
def runOps (ops : List RegOp) : RegistryState :=
  ops.foldl applyOp RegistryState.init

/-- Every key of the forward index appears in at least one worker's reverse
list. -/
def forwardCovered (s : RegistryState) : Prop :=
  ∀ k, (aget s.model_to_worker k).isSome = true →
    ∃ w ms, aget s.worker_to_models w = some ms ∧ k ∈ ms

/-- Mutual consistency of the two indices as claimed by the spec: every
forward key lies in exactly one worker's reverse list, and every reverse-list
key is present in the forward index. -/
def mutuallyConsistent (s : RegistryState) : Prop :=
  (∀ k, (aget s.model_to_worker k).isSome = true →
    ∃! w, ∃ ms, aget s.worker_to_models w = some ms ∧ k ∈ ms) ∧
  (∀ w ms k, aget s.worker_to_models w = some ms → k ∈ ms →
    (aget s.model_to_worker k).isSome = true)

/-! ## Worker client connection pool (src/cpp/server/worker_client.cpp) -/

/-- One endpoint's pool.  Connections are identified by numbers; the idle
vector `available` and the `in_use` counter mirror
`WorkerClient::ConnectionPool`. -/
structure PoolState where
  available : List Nat
  in_use : Nat
  max_connections : Nat
deriving DecidableEq, Repr

/-- `ConnectionPool::acquire`: take the last idle connection when the idle
vector is non-empty, else create a fresh connection while
`in_use < max_connections`.  `connectOk` models whether the socket connect
succeeds (`Connection::is_valid`); `fresh` is the new connection. -/
def poolAcquire (s : PoolState) (connectOk : Bool) (fresh : Nat) : Option Nat × PoolState :=
  match s.available.getLast? with
  | some c =>
      (some c, { s with available := s.available.dropLast, in_use := s.in_use + 1 })
  | none =>
      if s.in_use < s.max_connections then
        if connectOk then (some fresh, { s with in_use := s.in_use + 1 })
        else (none, s)
      else (none, s)

/-- `ConnectionPool::release`: the connection is destroyed rather than
returned to the idle vector; `in_use` is decremented when positive. -/
def poolRelease (s : PoolState) : PoolState :=
  if s.in_use > 0 then { s with in_use := s.in_use - 1 } else s

/-- The outcomes steering one `WorkerClient::forward_request` call: whether
request serialization, socket connect, send, recv and response parsing
succeed. -/
structure FwdEnv where
  serializeOk : Bool
  connectOk : Bool
  sendOk : Bool
  recvOk : Bool
  parseOk : Bool
deriving DecidableEq, Repr

/-- `WorkerClient::forward_request` restricted to one endpoint's pool:
returns the success flag together with the pool state after the call.  As in
the source, `release` is invoked only on the success path; the early returns
on send, recv and parse failure leave the pool untouched. -/
def forward_request (pool : PoolState) (env : FwdEnv) (fresh : Nat) : Bool × PoolState :=
  if !env.serializeOk then (false, pool)
  else
    match poolAcquire pool env.connectOk fresh with
    | (none, pool2) => (false, pool2)
    | (some _, pool2) =>
      if !env.sendOk then (false, pool2)
      else if !env.recvOk then (false, pool2)
      else if !env.parseOk then (false, pool2)
      else (true, poolRelease pool2)

/-- One pool transition, as performed inside `forward_request`. -/
inductive PoolOp where
  | acq (connectOk : Bool) (fresh : Nat)
  | rel
deriving DecidableEq, Repr

/-- Apply one pool transition (the acquired connection is discarded). -/
def poolStep (s : PoolState) : PoolOp → PoolState
  | .acq connectOk fresh => (poolAcquire s connectOk fresh).2
  | .rel => poolRelease s

/-- The pool after a sequence of transitions from the fresh per-endpoint
pool (`pools_[socket_path]` default-constructs with an empty idle vector). -/
def runPool (maxConn : Nat) (ops : List PoolOp) : PoolState :=
  ops.foldl poolStep ⟨[], 0, maxConn⟩

/-! ## Framing codec (`send_data` / `recv_data` in worker_client.cpp) -/

/-- The four big-endian bytes of a 32-bit length (`htonl`). -/
def toBE4 (n : Nat) : List Nat :=
  [n / 2 ^ 24 % 256, n / 2 ^ 16 % 256, n / 2 ^ 8 % 256, n % 256]

/-- `WorkerClient::send_data`: the 4-byte big-endian length (the payload size
truncated to `uint32_t`) followed by the payload bytes. -/
def send_data (payload : List Nat) : List Nat :=
  toBE4 (payload.length % 2 ^ 32) ++ payload

/-- `WorkerClient::recv_data`: read exactly 4 length bytes, then exactly that
many payload bytes; a short read is a failure. -/
def recv_data (stream : List Nat) : Option (List Nat) :=
  match stream with
  | b0 :: b1 :: b2 :: b3 :: rest =>
    let n := ((b0 * 256 + b1) * 256 + b2) * 256 + b3
    if rest.length < n then none else some (rest.take n)
  | _ => none

/-! ## Inference services (src/unnamed/part_001 and anyserve_core.cpp) -/

/-- The gRPC status codes the handlers return. -/
inductive StatusCode where
  | OK
  | NOT_FOUND
  | INTERNAL
  | UNIMPLEMENTED
deriving DecidableEq, Repr

/-- The observable outcome of one `KServeServiceImpl::ModelInfer` call:
status code, error message, and whether `forward_request` was invoked. -/
structure InferResult where
  code : StatusCode
  message : String
  workerContacted : Bool
deriving DecidableEq, Repr

/-- `KServeServiceImpl::ModelInfer`: look the model up in the registry;
return `NOT_FOUND` without contacting any worker when the lookup fails, else
forward to the worker (`forwardOk` models `forward_request` succeeding). -/
def kserveModelInfer (s : RegistryState) (name version : String)
    (forwardOk : String → Bool) : InferResult :=
  match lookup_worker s name version with
  | none =>
    { code := .NOT_FOUND
      message := "Model \x27" ++ name ++ (if version ≠ "" then ":" ++ version else "")
        ++ "\x27 not found"
      workerContacted := false }
  | some addr =>
    if forwardOk addr then
      { code := .OK, message := "", workerContacted := true }
    else
      { code := .INTERNAL, message := "Failed to forward request to worker"
        workerContacted := true }

/-- `KServeServiceImpl::ModelReady`: ready iff the registry lookup finds a
worker. -/
def kserveModelReady (s : RegistryState) (name version : String) : Bool :=
  (lookup_worker s name version).isSome

/-- `GrpcServiceImpl::ModelReady` in anyserve_core.cpp: unconditionally
`ready = true`. -/
def coreModelReady (_name _version : String) : Bool :=
  true

/-- The needle occurs as a contiguous substring of the haystack. -/
def containsStr (hay needle : String) : Prop :=
  ∃ l r, hay = l ++ needle ++ r

/-! ## Delegation (anyserve_core.cpp `GrpcServiceImpl::ModelInfer`,
`AnyserveCore::remote_call`, and the Python dispatcher) -/

/-- The request fields relevant to delegation: the capability and the
`is_delegated` entry of the request parameter map. -/
structure InferRequestMeta where
  model_name : String
  is_delegated_param : Option Bool
deriving DecidableEq, Repr

/-- How `GrpcServiceImpl::ModelInfer` reads the delegation marker: the
`is_delegated` parameter's bool value, defaulting to false when absent. -/
def read_is_delegated (r : InferRequestMeta) : Bool :=
  match r.is_delegated_param with
  | some b => b
  | none => false

/-- The request built by `AnyserveCore::remote_call`: the capability becomes
the model name, and the `is_delegated` parameter is set exactly when the call
is a delegation. -/
def remote_call_request (capability : String) (is_delegated : Bool) : InferRequestMeta :=
  { model_name := capability
    is_delegated_param := if is_delegated then some true else none }

/-- What a dispatcher does with one request. -/
inductive DispatchDecision where
  | serveLocal
  | failFast
  | delegate (target : String)
deriving DecidableEq, Repr

/-- Modelled from the spec: the Python dispatcher invoked by
`GrpcServiceImpl::ModelInfer` through the dispatcher callback is not among
the sources; per the spec, "Delegation depth is capped at 1 hop (carried in
a request header) to prevent loops; a second attempt at delegation MUST fail
fast."  So the dispatcher serves a local capability, fails fast on a request
already marked delegated that it cannot serve, and otherwise delegates once
to a target found through the directory. -/
def dispatcher_decision (isLocal is_delegated : Bool) (target : String) : DispatchDecision :=
  if isLocal then .serveLocal
  else if is_delegated then .failFast
  else .delegate target

/-- The dispatchers traversed by one request: at dispatcher `d`,
`GrpcServiceImpl::ModelInfer` reads the `is_delegated` parameter and hands it
to the dispatcher; a delegation goes through `AnyserveCore::remote_call`,
whose request carries `is_delegated = true`.  `fuel` bounds the recursion so
the traversal is total even for a hypothetically looping dispatcher. -/
def dispatchChain (isLocalAt : String → Bool) (targetOf : String → String) :
    Nat → String → InferRequestMeta → List String
  | 0, d, _ => [d]
  | fuel + 1, d, req =>
    match dispatcher_decision (isLocalAt d) (read_is_delegated req) (targetOf d) with
    | .serveLocal => [d]
    | .failFast => [d]
    | .delegate t =>
        d :: dispatchChain isLocalAt targetOf fuel t (remote_call_request req.model_name true)

/-! ## Association-list lemmas -/

theorem aget_aerase {α : Type} (l : List (String × α)) (k k2 : String) :
    aget (aerase l k) k2 = if k = k2 then none else aget l k2 := by
  induction l with
  | nil => simp [aerase, aget]
  | cons p rest ih =>
    obtain ⟨k3, v⟩ := p
    by_cases h3 : k3 = k
    · subst h3
      simp only [aerase, if_pos rfl, ih, aget]
      by_cases h : k3 = k2
      · subst h; simp [ih]
      · simp [h, ih]
    · simp only [aerase, if_neg h3, aget]
      by_cases h : k3 = k2
      · subst h
        have : ¬ k = k3 := fun hc => h3 hc.symm
        simp [this]
      · simp [h, ih]

theorem aget_aset {α : Type} (l : List (String × α)) (k k2 : String) (v : α) :
    aget (aset l k v) k2 = if k = k2 then some v else aget l k2 := by
  simp only [aset, aget]
  by_cases h : k = k2
  · simp [h]
  · simp [h, aget_aerase]

theorem aget_foldl_aerase {α : Type} (ks : List String) (l : List (String × α)) (k : String) :
    aget (ks.foldl aerase l) k = if k ∈ ks then none else aget l k := by
  induction ks generalizing l with
  | nil => simp
  | cons k0 rest ih =>
    simp only [List.foldl_cons, ih, aget_aerase, List.mem_cons]
    by_cases h0 : k0 = k
    · simp [h0]
    · have : ¬ k = k0 := fun hc => h0 hc.symm
      simp [h0, this]

/-! ## Registry lemmas -/

theorem mem_updatedModels_self (s : RegistryState) (key wid : String) :
    key ∈ updatedModels s key wid := by
  unfold updatedModels
  by_cases h : key ∈ (aget s.worker_to_models wid).getD []
  · rw [if_pos h]; exact h
  · rw [if_neg h]
    exact List.mem_append.mpr (Or.inr (List.mem_singleton.mpr rfl))

theorem mem_updatedModels_of_mem (s : RegistryState) (key wid k : String) (ms : List String)
    (hw : aget s.worker_to_models wid = some ms) (hk : k ∈ ms) :
    k ∈ updatedModels s key wid := by
  unfold updatedModels
  rw [hw]
  simp only [Option.getD_some]
  by_cases h : key ∈ ms
  · rw [if_pos h]; exact hk
  · rw [if_neg h]
    exact List.mem_append.mpr (Or.inl hk)

theorem unregister_worker_eq_of_some (s : RegistryState) (wid : String) (models : List String)
    (hws : aget s.worker_to_models wid = some models) :
    unregister_worker s wid =
      ({ model_to_worker := models.foldl aerase s.model_to_worker
         worker_to_models := aerase s.worker_to_models wid
         worker_addresses := aerase s.worker_addresses wid }, models.length) := by
  unfold unregister_worker
  rw [hws]

theorem unregister_worker_eq_of_none (s : RegistryState) (wid : String)
    (hws : aget s.worker_to_models wid = none) :
    unregister_worker s wid = ({ s with worker_addresses := aerase s.worker_addresses wid }, 0) := by
  unfold unregister_worker
  rw [hws]

theorem forwardCovered_register (s : RegistryState) (name version addr wid : String)
    (h : forwardCovered s) : forwardCovered (register_model s name version addr wid) := by
  intro k hk
  simp only [register_model, aget_aset] at hk ⊢
  by_cases hkk : make_model_key name version = k
  · subst hkk
    refine ⟨wid, updatedModels s (make_model_key name version) wid, by simp, ?_⟩
    exact mem_updatedModels_self s (make_model_key name version) wid
  · rw [if_neg hkk] at hk
    obtain ⟨w, ms, hw, hkms⟩ := h k hk
    by_cases hww : wid = w
    · subst hww
      refine ⟨wid, updatedModels s (make_model_key name version) wid, by simp, ?_⟩
      exact mem_updatedModels_of_mem s (make_model_key name version) wid k ms hw hkms
    · exact ⟨w, ms, by rw [if_neg hww]; exact hw, hkms⟩

theorem forwardCovered_unregister_worker (s : RegistryState) (wid : String)
    (h : forwardCovered s) : forwardCovered (unregister_worker s wid).1 := by
  cases hws : aget s.worker_to_models wid with
  | none =>
    rw [unregister_worker_eq_of_none s wid hws]
    intro k hk
    exact h k hk
  | some models =>
    rw [unregister_worker_eq_of_some s wid models hws]
    intro k hk
    simp only at hk ⊢
    rw [aget_foldl_aerase] at hk
    by_cases hkm : k ∈ models
    · rw [if_pos hkm] at hk
      simp at hk
    · rw [if_neg hkm] at hk
      obtain ⟨w, ms, hw, hkms⟩ := h k hk
      have hwne : w ≠ wid := by
        intro he
        rw [he, hws] at hw
        cases hw
        exact hkm hkms
      refine ⟨w, ms, ?_, hkms⟩
      rw [aget_aerase]
      rw [if_neg (fun he => hwne he.symm)]
      exact hw

theorem unregister_model_eq_of_none (s : RegistryState) (name version wid : String)
    (hm : aget s.model_to_worker (make_model_key name version) = none) :
    unregister_model s name version wid = (s, false) := by
  simp only [unregister_model, hm]

theorem unregister_model_eq_noworker (s : RegistryState) (name version wid a : String)
    (hm : aget s.model_to_worker (make_model_key name version) = some a)
    (hws : aget s.worker_to_models wid = none) :
    unregister_model s name version wid =
      ({ s with model_to_worker := aerase s.model_to_worker (make_model_key name version) },
        true) := by
  simp only [unregister_model, hm, hws]

theorem unregister_model_eq_empties (s : RegistryState) (name version wid a : String)
    (models : List String)
    (hm : aget s.model_to_worker (make_model_key name version) = some a)
    (hws : aget s.worker_to_models wid = some models)
    (hemp : models.filter (fun m => m ≠ make_model_key name version) = []) :
    unregister_model s name version wid =
      ({ model_to_worker := aerase s.model_to_worker (make_model_key name version)
         worker_to_models := aerase s.worker_to_models wid
         worker_addresses := aerase s.worker_addresses wid }, true) := by
  simp only [unregister_model, hm, hws, hemp, List.isEmpty_nil, if_true]

theorem unregister_model_eq_rest (s : RegistryState) (name version wid a : String)
    (models : List String)
    (hm : aget s.model_to_worker (make_model_key name version) = some a)
    (hws : aget s.worker_to_models wid = some models)
    (hemp : models.filter (fun m => m ≠ make_model_key name version) ≠ []) :
    unregister_model s name version wid =
      ({ model_to_worker := aerase s.model_to_worker (make_model_key name version)
         worker_to_models :=
           aset s.worker_to_models wid
             (models.filter (fun m => m ≠ make_model_key name version))
         worker_addresses := s.worker_addresses }, true) := by
  simp only [unregister_model, hm, hws]
  rw [if_neg (by simpa [List.isEmpty_iff] using hemp)]

theorem forwardCovered_unregister_model (s : RegistryState) (name version wid : String)
    (h : forwardCovered s) : forwardCovered (unregister_model s name version wid).1 := by
  cases hm : aget s.model_to_worker (make_model_key name version) with
  | none =>
    rw [unregister_model_eq_of_none s name version wid hm]
    exact h
  | some a =>
    cases hws : aget s.worker_to_models wid with
    | none =>
      rw [unregister_model_eq_noworker s name version wid a hm hws]
      intro k hk
      simp only [aget_aerase] at hk
      by_cases hkk : make_model_key name version = k
      · rw [if_pos hkk] at hk; simp at hk
      · rw [if_neg hkk] at hk
        exact h k hk
    | some models =>
      by_cases hemp : models.filter (fun m => m ≠ make_model_key name version) = []
      · rw [unregister_model_eq_empties s name version wid a models hm hws hemp]
        intro k hk
        simp only [aget_aerase] at hk
        by_cases hkk : make_model_key name version = k
        · rw [if_pos hkk] at hk; simp at hk
        · rw [if_neg hkk] at hk
          obtain ⟨w, ms, hw, hkms⟩ := h k hk
          have hwne : w ≠ wid := by
            intro he
            rw [he, hws] at hw
            cases hw
            have hmem : k ∈ models.filter (fun m => m ≠ make_model_key name version) := by
              simp only [List.mem_filter, decide_eq_true_eq]
              exact ⟨hkms, fun he2 => hkk he2.symm⟩
            rw [hemp] at hmem
            simp at hmem
          refine ⟨w, ms, ?_, hkms⟩
          simp only [aget_aerase]
          rw [if_neg (fun he => hwne he.symm)]
          exact hw
      · rw [unregister_model_eq_rest s name version wid a models hm hws hemp]
        intro k hk
        simp only [aget_aerase] at hk
        by_cases hkk : make_model_key name version = k
        · rw [if_pos hkk] at hk; simp at hk
        · rw [if_neg hkk] at hk
          obtain ⟨w, ms, hw, hkms⟩ := h k hk
          by_cases hww : wid = w
          · subst hww
            refine ⟨wid, models.filter (fun m => m ≠ make_model_key name version),
              by simp [aget_aset], ?_⟩
            rw [hws] at hw
            cases hw
            simp only [List.mem_filter, decide_eq_true_eq]
            exact ⟨hkms, fun he2 => hkk he2.symm⟩
          · refine ⟨w, ms, ?_, hkms⟩
            simp only [aget_aset]
            rw [if_neg hww]
            exact hw

theorem forwardCovered_applyOp (s : RegistryState) (op : RegOp)
    (h : forwardCovered s) : forwardCovered (applyOp s op) := by
  cases op with
  | reg name version addr wid => exact forwardCovered_register s name version addr wid h
  | unregWorker wid => exact forwardCovered_unregister_worker s wid h
  | unregModel name version wid => exact forwardCovered_unregister_model s name version wid h

theorem forwardCovered_foldl (ops : List RegOp) (s : RegistryState)
    (h : forwardCovered s) : forwardCovered (ops.foldl applyOp s) := by
  induction ops generalizing s with
  | nil => exact h
  | cons op rest ih => exact ih (applyOp s op) (forwardCovered_applyOp s op h)

theorem forwardCovered_init : forwardCovered RegistryState.init := by
  intro k hk
  simp [RegistryState.init, aget] at hk

/-! ## Pool lemmas -/

theorem poolStep_available_nil (s : PoolState) (op : PoolOp) (h : s.available = []) :
    (poolStep s op).available = [] := by
  cases op with
  | acq connectOk fresh =>
    simp only [poolStep, poolAcquire, h, List.getLast?_nil]
    by_cases h1 : s.in_use < s.max_connections
    · rw [if_pos h1]
      cases connectOk
      · simp [h]
      · simp [h]
    · rw [if_neg h1]
      exact h
  | rel =>
    simp only [poolStep, poolRelease]
    by_cases h1 : s.in_use > 0
    · rw [if_pos h1]; exact h
    · rw [if_neg h1]; exact h

theorem runPool_available_nil (maxConn : Nat) (ops : List PoolOp) :
    (runPool maxConn ops).available = [] := by
  have hgen : ∀ (l : List PoolOp) (s : PoolState), s.available = [] →
      (l.foldl poolStep s).available = [] := by
    intro l
    induction l with
    | nil => intro s hs; exact hs
    | cons op rest ih => intro s hs; exact ih _ (poolStep_available_nil s op hs)
  exact hgen ops ⟨[], 0, maxConn⟩ rfl

/-! ## Claim theorems -/

/-- C9: the worker client's connection pool is single-use: `release` destroys
the connection and never refills the idle vector, so in every reachable pool
state the idle vector is empty, and every successful `acquire` goes through
the create-new path: the connection returned is the freshly created one,
the connect must have succeeded, and `in_use` grows by one. -/
theorem C9_pool_single_use (maxConn : Nat) (ops : List PoolOp) :
    (runPool maxConn ops).available = [] ∧
    (∀ connectOk fresh c s2,
      poolAcquire (runPool maxConn ops) connectOk fresh = (some c, s2) →
      c = fresh ∧ connectOk = true ∧ s2.in_use = (runPool maxConn ops).in_use + 1) := by
  have hnil := runPool_available_nil maxConn ops
  refine ⟨hnil, ?_⟩
  intro connectOk fresh c s2 hacq
  unfold poolAcquire at hacq
  rw [hnil] at hacq
  simp only [List.getLast?_nil] at hacq
  by_cases h1 : (runPool maxConn ops).in_use < (runPool maxConn ops).max_connections
  · rw [if_pos h1] at hacq
    cases connectOk
    · simp at hacq
    · rw [if_pos rfl] at hacq
      rw [Prod.mk.injEq] at hacq
      obtain ⟨hc, hs⟩ := hacq
      cases hc
      exact ⟨rfl, rfl, by rw [← hs]⟩
  · rw [if_neg h1] at hacq
    simp at hacq

/-- C9 witness: a concrete successful acquire on the empty reachable pool. -/
theorem C9_pool_single_use_witness :
    poolAcquire (runPool 1 []) true 7 = (some 7, ⟨[], 1, 1⟩) ∧
    7 = 7 ∧ true = true ∧ (⟨[], 1, 1⟩ : PoolState).in_use = (runPool 1 []).in_use + 1 := by
  have h := (C9_pool_single_use 1 []).2 true 7 7 ⟨[], 1, 1⟩ (by decide)
  exact ⟨by decide, h⟩

/-- C3: at the failing input (fresh pool, successful acquire, then a send,
recv or parse failure), `WorkerClient::forward_request` returns without
releasing, leaving `in_use = 1` with no connection held; only the success
path ends with `in_use` back at 0. -/
theorem C3_forward_request_leaks_on_failure :
    (forward_request ⟨[], 0, 10⟩ ⟨true, true, false, true, true⟩ 0).2.in_use = 1 ∧
    (forward_request ⟨[], 0, 10⟩ ⟨true, true, true, false, true⟩ 0).2.in_use = 1 ∧
    (forward_request ⟨[], 0, 10⟩ ⟨true, true, true, true, false⟩ 0).2.in_use = 1 ∧
    (forward_request ⟨[], 0, 10⟩ ⟨true, true, true, true, true⟩ 0).2.in_use = 0 := by
  decide

/-- C10: `make_model_key` is not injective: `("a:b", "")` and `("a", "b")`
are distinct pairs with the same key, registering one overwrites the other's
forward entry, and looking up either pair returns whichever endpoint was
registered last. -/
theorem C10_model_key_not_injective :
    make_model_key "a:b" "" = make_model_key "a" "b" ∧
    (("a:b", "") : String × String) ≠ ("a", "b") ∧
    lookup_worker (register_model (register_model RegistryState.init "a:b" "" "e1" "w1")
      "a" "b" "e2" "w2") "a:b" "" = some "e2" ∧
    lookup_worker (register_model (register_model RegistryState.init "a:b" "" "e1" "w1")
      "a" "b" "e2" "w2") "a" "b" = some "e2" ∧
    lookup_worker (register_model (register_model RegistryState.init "a" "b" "e2" "w2")
      "a:b" "" "e1" "w1") "a" "b" = some "e1" := by
  decide

/-- C6: framing round-trip: for any payload of length at most `2^32 - 1`,
framing it as a 4-byte big-endian length followed by the payload and then
decoding (4 length bytes, then exactly that many payload bytes) returns the
original payload. -/
theorem C6_framing_roundtrip (payload : List Nat) (h : payload.length ≤ 2 ^ 32 - 1) :
    recv_data (send_data payload) = some payload := by
  have hlt : payload.length < 2 ^ 32 := by
    have h32 : (2 : Nat) ^ 32 = 4294967296 := by norm_num
    omega
  have hmod : payload.length % 2 ^ 32 = payload.length := Nat.mod_eq_of_lt hlt
  unfold send_data toBE4 recv_data
  simp only [List.cons_append, List.nil_append, hmod]
  have h24 : (2 : Nat) ^ 24 = 16777216 := by norm_num
  have h16 : (2 : Nat) ^ 16 = 65536 := by norm_num
  have h8 : (2 : Nat) ^ 8 = 256 := by norm_num
  have hn : ((payload.length / 2 ^ 24 % 256 * 256 + payload.length / 2 ^ 16 % 256) * 256 +
      payload.length / 2 ^ 8 % 256) * 256 + payload.length % 256 = payload.length := by
    rw [h24, h16, h8]
    have h32 : (2 : Nat) ^ 32 = 4294967296 := by norm_num
    rw [h32] at hlt
    omega
  rw [hn]
  simp

/-- C6 witness: the round-trip on the concrete payload `[1, 2, 3]`. -/
theorem C6_framing_roundtrip_witness :
    ([1, 2, 3] : List Nat).length ≤ 2 ^ 32 - 1 ∧
    recv_data (send_data [1, 2, 3]) = some [1, 2, 3] :=
  ⟨by norm_num, C6_framing_roundtrip [1, 2, 3] (by norm_num)⟩

/-- C4: `lookup_worker` implements exactly the two-step fallback: an exact
hit wins; on a miss with a non-empty version the version-less key decides;
on a miss with the empty version the result is exactly the version-less key
lookup (no fallback to any specific version); when both keys are absent the
result is not-found. -/
theorem C4_lookup_two_step (s : RegistryState) (name version : String) :
    (∀ e, aget s.model_to_worker (make_model_key name version) = some e →
      lookup_worker s name version = some e) ∧
    (aget s.model_to_worker (make_model_key name version) = none → version ≠ "" →
      lookup_worker s name version = aget s.model_to_worker (make_model_key name "")) ∧
    (aget s.model_to_worker (make_model_key name version) = none →
      aget s.model_to_worker (make_model_key name "") = none →
      lookup_worker s name version = none) ∧
    (version = "" →
      lookup_worker s name version = aget s.model_to_worker (make_model_key name "")) := by
  refine ⟨?_, ?_, ?_, ?_⟩
  · intro e he
    unfold lookup_worker
    rw [he]
  · intro hn hv
    unfold lookup_worker
    rw [hn]
    simp [hv]
  · intro hn hn2
    unfold lookup_worker
    rw [hn]
    by_cases hv : version = ""
    · simp [hv]
    · simp [hv, hn2]
  · intro hv
    subst hv
    unfold lookup_worker
    cases hl : aget s.model_to_worker (make_model_key name "") <;> simp [hl]

/-- C4 witness: scenario S3 of the spec: a worker registers `("m", "")`, a
lookup of `("m", "v1")` misses the exact key and succeeds via the fallback. -/
theorem C4_lookup_two_step_witness :
    aget (register_model RegistryState.init "m" "" "e1" "w1").model_to_worker
      (make_model_key "m" "v1") = none ∧
    lookup_worker (register_model RegistryState.init "m" "" "e1" "w1") "m" "v1" = some "e1" := by
  constructor
  · decide
  · have h := (C4_lookup_two_step (register_model RegistryState.init "m" "" "e1" "w1")
      "m" "v1").2.1 (by decide) (by decide)
    rw [h]
    decide

/-- C7 (amended): in the KServe dispatcher service the `ModelReady` response
is true exactly when the registry lookup finds a worker; the core gRPC
service (`GrpcServiceImpl` in anyserve_core.cpp), by contrast, answers
`ready = true` unconditionally. -/
theorem C7_modelready_kserve_iff_lookup (s : RegistryState) (name version : String) :
    (kserveModelReady s name version = true ↔ ∃ e, lookup_worker s name version = some e) ∧
    coreModelReady name version = true := by
  constructor
  · unfold kserveModelReady
    cases h : lookup_worker s name version <;> simp [h]
  · rfl

/-- C7 counterexample: on the empty registry the lookup of `("m", "")` fails,
yet `GrpcServiceImpl::ModelReady` reports ready, so the ready flag does not
equal lookup success in every service implementation. -/
theorem C7_counterexample :
    ¬ (coreModelReady "m" "" = (lookup_worker RegistryState.init "m" "").isSome) := by
  decide

theorem string_append_assoc (a b c : String) : a ++ b ++ c = a ++ (b ++ c) := by
  apply String.ext
  simp [String.data_append, List.append_assoc]

/-- C5: when the registry lookup fails, `KServeServiceImpl::ModelInfer`
returns `NOT_FOUND` (never `INTERNAL`), the error message contains the model
name (and the version when non-empty), and no worker is contacted. -/
theorem C5_modelinfer_notfound (s : RegistryState) (name version : String)
    (forwardOk : String → Bool) (h : lookup_worker s name version = none) :
    (kserveModelInfer s name version forwardOk).code = StatusCode.NOT_FOUND ∧
    (kserveModelInfer s name version forwardOk).workerContacted = false ∧
    containsStr (kserveModelInfer s name version forwardOk).message name ∧
    (version ≠ "" → containsStr (kserveModelInfer s name version forwardOk).message version) ∧
    (kserveModelInfer s name version forwardOk).code ≠ StatusCode.INTERNAL := by
  unfold kserveModelInfer
  rw [h]
  refine ⟨rfl, rfl, ?_, ?_, by simp⟩
  · refine ⟨"Model \x27", (if version ≠ "" then ":" ++ version else "") ++ "\x27 not found", ?_⟩
    simp only [string_append_assoc]
  · intro hv
    refine ⟨"Model \x27" ++ name ++ ":", "\x27 not found", ?_⟩
    rw [if_pos hv]
    simp only [string_append_assoc]

/-- C5 witness: scenario S4 of the spec: nothing registered, an inference
request for `"missing"` is rejected as `NOT_FOUND` without contacting any
worker. -/
theorem C5_modelinfer_notfound_witness :
    lookup_worker RegistryState.init "missing" "" = none ∧
    (kserveModelInfer RegistryState.init "missing" "" (fun _ => true)).code =
      StatusCode.NOT_FOUND ∧
    (kserveModelInfer RegistryState.init "missing" "" (fun _ => true)).workerContacted =
      false := by
  refine ⟨by decide, ?_, ?_⟩
  · exact (C5_modelinfer_notfound RegistryState.init "missing" "" (fun _ => true) (by decide)).1
  · exact (C5_modelinfer_notfound RegistryState.init "missing" ""
      (fun _ => true) (by decide)).2.1

theorem dispatchChain_delegated_eq (isLocalAt : String → Bool) (targetOf : String → String)
    (fuel : Nat) (t name : String) :
    dispatchChain isLocalAt targetOf fuel t (remote_call_request name true) = [t] := by
  cases fuel with
  | zero => rfl
  | succ f =>
    simp only [dispatchChain, remote_call_request, read_is_delegated, dispatcher_decision]
    cases hl : isLocalAt t <;> simp [hl]

/-- C8: delegation depth is bounded at one hop: a request arriving without
the delegation marker traverses at most two dispatchers, and a request
already marked delegated (as built by `AnyserveCore::remote_call`) is never
delegated again — its chain stops at the dispatcher that received it. -/
theorem C8_delegation_depth (isLocalAt : String → Bool) (targetOf : String → String)
    (fuel : Nat) (d name : String) :
    (dispatchChain isLocalAt targetOf fuel d ⟨name, none⟩).length ≤ 2 ∧
    (∀ t, dispatchChain isLocalAt targetOf fuel t (remote_call_request name true) = [t]) := by
  constructor
  · cases fuel with
    | zero => simp [dispatchChain]
    | succ f =>
      simp only [dispatchChain, read_is_delegated, dispatcher_decision]
      cases hl : isLocalAt d
      · simp only [Bool.false_eq_true, if_false]
        simp only [List.length_cons]
        rw [dispatchChain_delegated_eq]
        simp
      · simp
  · intro t
    exact dispatchChain_delegated_eq isLocalAt targetOf fuel t name

/-- C1 (amended): in every state reachable by register_model,
unregister_model and unregister_worker calls, every model_key of the forward
index appears in at least one worker's reverse list (full mutual consistency
fails after a cross-worker re-register: see the counterexample). -/
theorem C1_forward_index_covered (ops : List RegOp) (k : String)
    (hk : (aget (runOps ops).model_to_worker k).isSome = true) :
    ∃ w ms, aget (runOps ops).worker_to_models w = some ms ∧ k ∈ ms :=
  forwardCovered_foldl ops RegistryState.init forwardCovered_init k hk

/-- C1 witness: one registration puts `"m"` into the forward index and into
worker `"A"`'s reverse list. -/
theorem C1_forward_index_covered_witness :
    (aget (runOps [RegOp.reg "m" "" "a1" "A"]).model_to_worker "m").isSome = true ∧
    ∃ w ms, aget (runOps [RegOp.reg "m" "" "a1" "A"]).worker_to_models w = some ms ∧
      "m" ∈ ms :=
  ⟨by decide, C1_forward_index_covered [RegOp.reg "m" "" "a1" "A"] "m" (by decide)⟩

/-- C1 counterexample: after worker `"B"` re-registers the model_key `"m"`
previously registered by worker `"A"`, the key sits in both reverse lists,
so it is not in exactly one worker's reverse set: the indices are not
mutually consistent at this reachable state. -/
theorem C1_counterexample :
    ¬ mutuallyConsistent (runOps [RegOp.reg "m" "" "addrA" "A",
      RegOp.reg "m" "" "addrB" "B"]) := by
  intro hmc
  obtain ⟨h1, _⟩ := hmc
  obtain ⟨w, _, huniq⟩ := h1 "m" (by decide)
  have hA : "A" = w := huniq "A" ⟨["m"], by decide, by decide⟩
  have hB : "B" = w := huniq "B" ⟨["m"], by decide, by decide⟩
  have hAB : ("A" : String) = "B" := hA.trans hB.symm
  exact absurd hAB (by decide)

/-- C2 (amended): for a worker with reverse list `models`,
`unregister_worker` erases exactly the keys of `models` from the forward
index (entries for other keys survive), drops the worker's reverse list and
endpoint record while leaving other workers' records alone, and returns the
length of `models` — which can exceed the number of forward entries actually
dropped when a listed key was meanwhile re-registered by another worker and
then removed. -/
theorem C2_unregister_worker_spec (s : RegistryState) (wid : String) (models : List String)
    (hws : aget s.worker_to_models wid = some models) :
    (∀ k, aget (unregister_worker s wid).1.model_to_worker k =
      if k ∈ models then none else aget s.model_to_worker k) ∧
    aget (unregister_worker s wid).1.worker_to_models wid = none ∧
    (∀ w, w ≠ wid → aget (unregister_worker s wid).1.worker_to_models w =
      aget s.worker_to_models w) ∧
    aget (unregister_worker s wid).1.worker_addresses wid = none ∧
    (∀ w, w ≠ wid → aget (unregister_worker s wid).1.worker_addresses w =
      aget s.worker_addresses w) ∧
    (unregister_worker s wid).2 = models.length := by
  rw [unregister_worker_eq_of_some s wid models hws]
  refine ⟨?_, ?_, ?_, ?_, ?_, rfl⟩
  · intro k
    exact aget_foldl_aerase models s.model_to_worker k
  · rw [aget_aerase]
    simp
  · intro w hw
    rw [aget_aerase]
    rw [if_neg (fun he => hw he.symm)]
  · rw [aget_aerase]
    simp
  · intro w hw
    rw [aget_aerase]
    rw [if_neg (fun he => hw he.symm)]

/-- C2 witness: unregistering a worker that owns exactly `"m"` removes the
forward entry, drops both records, and returns 1. -/
theorem C2_unregister_worker_spec_witness :
    aget (runOps [RegOp.reg "m" "" "a1" "A"]).worker_to_models "A" = some ["m"] ∧
    aget (unregister_worker (runOps [RegOp.reg "m" "" "a1" "A"]) "A").1.model_to_worker "m" =
      none ∧
    aget (unregister_worker (runOps [RegOp.reg "m" "" "a1" "A"]) "A").1.worker_to_models "A" =
      none ∧
    (unregister_worker (runOps [RegOp.reg "m" "" "a1" "A"]) "A").2 = 1 := by
  have h := C2_unregister_worker_spec (runOps [RegOp.reg "m" "" "a1" "A"]) "A" ["m"] (by decide)
  refine ⟨by decide, ?_, h.2.1, ?_⟩
  · rw [h.1 "m"]
    simp
  · rw [h.2.2.2.2.2]
    rfl

/-- C2 counterexample: worker `"A"` registers `"m"`, worker `"B"`
re-registers it, and `"B"` is unregistered (dropping the forward entry).
Unregistering `"A"` then changes no forward entry — the forward index is
identical before and after — yet the call returns 1, not the number of
forward entries actually dropped. -/
theorem C2_counterexample :
    (unregister_worker (runOps [RegOp.reg "m" "" "a1" "A", RegOp.reg "m" "" "a2" "B",
      RegOp.unregWorker "B"]) "A").1.model_to_worker =
      (runOps [RegOp.reg "m" "" "a1" "A", RegOp.reg "m" "" "a2" "B",
        RegOp.unregWorker "B"]).model_to_worker ∧
    (unregister_worker (runOps [RegOp.reg "m" "" "a1" "A", RegOp.reg "m" "" "a2" "B",
      RegOp.unregWorker "B"]) "A").2 = 1 := by
  decide

end Anyserve

